import Mathlib

set_option autoImplicit false

/-!
Shallow embedding of the server `action` of `app/routes/app._index.jsx`
(restocking-report): pagination over remote order pages, date-window
filtering, flattening of order line items with per-location inventory,
grouping by product/variant/SKU, and sorting by SKU.

Timestamps are modelled as `Int` milliseconds since the epoch.  A parsed
JS `Date` is `Option Int`, with `none` standing for an Invalid Date
(`NaN`), whose comparisons are always false.  The remote is modelled as
the list of page responses it would return to the successive requests.
`String.prototype.localeCompare` is an abstract comparator parameter.
-/

namespace RestockingReport

/-- Stock value recorded for a location: either an available quantity or
the placeholder `"-"` used when no `available` entry is found. -/
inductive Stock where
  | val (q : Int)
  | dash
  deriving DecidableEq, Repr

/-- One entry of an inventory level's `quantities(names: "available")` list. -/
structure QuantityEntry where
  name : String
  quantity : Int
  deriving DecidableEq, Repr

/-- One inventory level.  `quantities = none` models an absent `quantities`
field (`lvl.quantities?.find` then yields `undefined`); `locationName`
models `lvl.location?.name` (`none` when the location object or its name
is absent). -/
structure InvLevel where
  quantities : Option (List QuantityEntry)
  locationName : Option String
  deriving DecidableEq, Repr

/-- Product data carried by a line item; every field is optional. -/
structure Product where
  title : Option String
  vendor : Option String
  productType : Option String
  deriving DecidableEq, Repr

/-- Variant data carried by a line item.  `inventoryLevels` models the
chain `v?.inventoryItem?.inventoryLevels?.edges || []` already collapsed
to the list of levels. -/
structure Variant where
  title : Option String
  sku : Option String
  inventoryLevels : List InvLevel
  deriving DecidableEq, Repr

/-- One order line item. -/
structure LineItem where
  quantity : Int
  product : Option Product
  variant : Option Variant
  deriving DecidableEq, Repr

/-- One order: creation timestamp (milliseconds) and its line items. -/
structure Order where
  createdAt : Int
  lineItems : List LineItem
  deriving DecidableEq, Repr

/-- One remote response to a page request: GraphQL-reported `errors`, a
missing `data.orders` payload, or a page of order edges plus
`pageInfo.hasNextPage`. -/
inductive PageResp where
  | errors
  | missing
  | ok (edges : List Order) (hasNextPage : Bool)
  deriving DecidableEq, Repr

/-- JS `t >= d` where `d` may be an Invalid Date (`NaN`): any comparison
against `NaN` is false. -/
def jsGe (t : Int) (d : Option Int) : Bool :=
  match d with
  | some x => decide (x ≤ t)
  | none => false

/-- JS `t <= d` where `d` may be an Invalid Date (`NaN`). -/
def jsLe (t : Int) (d : Option Int) : Bool :=
  match d with
  | some x => decide (t ≤ x)
  | none => false

/-- The in-loop filter `created >= startDate && created <= endDate`. -/
def matchPred (s e : Option Int) (o : Order) : Bool :=
  jsGe o.createdAt s && jsLe o.createdAt e

/-- Model of `endDate.setSeconds(59, 999)` on a millisecond timestamp:
seconds and milliseconds within the current minute become 59.999.
Time-zone offsets are whole minutes, so the minute boundary is
offset-independent. -/
def adjustEnd (e : Int) : Int := e - e.emod 60000 + 59999

/-- `setSeconds` on an Invalid Date leaves it invalid. -/
def adjustEndO (e : Option Int) : Option Int := e.map adjustEnd

/-- The pagination loop of `action`: consume remote page responses in
order; on an error or missing payload stop with what was accumulated;
otherwise push the page's in-window orders, then stop if more than 1000
matches have accumulated (checked after pushing the whole page) or
`hasNextPage` is false. -/
def fetchLoop (s e : Option Int) : List PageResp → List Order → List Order
  | [], acc => acc
  | .errors :: _, acc => acc
  | .missing :: _, acc => acc
  | .ok edges hnp :: rest, acc =>
    let acc2 := acc ++ edges.filter (matchPred s e)
    if acc2.length > 1000 then acc2
    else if hnp then fetchLoop s e rest acc2
    else acc2

/-- The orders the loop actually fetched (edges of the ok pages it
consumed), mirroring `fetchLoop`'s stopping decisions. -/
def consumedEdges (s e : Option Int) : List PageResp → List Order → List Order
  | [], _ => []
  | .errors :: _, _ => []
  | .missing :: _, _ => []
  | .ok edges hnp :: rest, acc =>
    let acc2 := acc ++ edges.filter (matchPred s e)
    edges ++ (if acc2.length > 1000 then [] else if hnp then consumedEdges s e rest acc2 else [])

/-- JS `x || d` for an optional string: `undefined`, `null` and the empty
string are falsy, so all of them fall back to the default. -/
def orDefault (x : Option String) (d : String) : String :=
  match x with
  | some s => if s = "" then d else s
  | none => d

/-- `lvl.quantities?.find((q) => q.name === "available")` followed by
`avail ? avail.quantity : "-"`. -/
def availOf (lvl : InvLevel) : Stock :=
  match lvl.quantities with
  | none => .dash
  | some qs =>
    match qs.find? (fun q => q.name == "available") with
    | some q => .val q.quantity
    | none => .dash

/-- `lvl.location?.name || "Unknown"`. -/
def locKey (lvl : InvLevel) : String := orDefault lvl.locationName "Unknown"

/-- JS-object-like association list over string keys. -/
abbrev LocMap := List (String × Stock)

/-- Lookup in a JS-object-like association list (keys are unique in the
maps the code builds; lookup returns the first entry with the key). -/
def lookupA {α : Type} (m : List (String × α)) (k : String) : Option α :=
  (m.find? (fun p => p.1 == k)).map Prod.snd

/-- JS object assignment `m[k] = v`: overwrite in place when the key is
present, else append (string keys keep insertion order). -/
def upsertA {α : Type} (m : List (String × α)) (k : String) (v : α) : List (String × α) :=
  if (m.find? (fun p => p.1 == k)).isSome then
    m.map (fun p => if p.1 == k then (k, v) else p)
  else m ++ [(k, v)]

/-- In-place update of the entry at key `k`. -/
def updateA {α : Type} (m : List (String × α)) (k : String) (f : α → α) : List (String × α) :=
  m.map (fun p => if p.1 == k then (p.1, f p.2) else p)

/-- `locationNames.add(loc)`: insertion-ordered set of location names. -/
def insertSet (s : List String) (x : String) : List String :=
  if x ∈ s then s else s ++ [x]

/-- The inner loop over a line item's inventory levels: record each
level's location name in the discovered set and its available quantity in
the row's fresh `locData` object (a repeated location name overwrites). -/
def procLevels (locs : List String) (levels : List InvLevel) : List String × LocMap :=
  levels.foldl (fun st lvl => (insertSet st.1 (locKey lvl), upsertA st.2 (locKey lvl) (availOf lvl))) (locs, [])

/-- One flattened row pushed onto `rawRows`. -/
structure FlatRow where
  productTitle : String
  productVariantTitle : String
  sku : String
  vendor : String
  productType : String
  netItemsSold : Int
  locations : LocMap
  deriving DecidableEq, Repr

/-- `v?.inventoryItem?.inventoryLevels?.edges || []`. -/
def levelsOf (n : LineItem) : List InvLevel :=
  match n.variant with
  | some v => v.inventoryLevels
  | none => []

/-- The flat row built from one line item (`rawRows.push({...})`): absent
or empty product/variant fields fall back to the literal `"N/A"`. -/
def mkRow (n : LineItem) : FlatRow :=
  { productTitle := orDefault (n.product.bind Product.title) "N/A"
    productVariantTitle := orDefault (n.variant.bind Variant.title) "N/A"
    sku := orDefault (n.variant.bind Variant.sku) "N/A"
    vendor := orDefault (n.product.bind Product.vendor) "N/A"
    productType := orDefault (n.product.bind Product.productType) "N/A"
    netItemsSold := n.quantity
    locations := (procLevels [] (levelsOf n)).2 }

/-- Flattening step for one line item: push its row and extend the
discovered location-name set. -/
def flattenItem (st : List FlatRow × List String) (n : LineItem) : List FlatRow × List String :=
  (st.1 ++ [mkRow n], (procLevels st.2 (levelsOf n)).1)

/-- Flattening step for one matched order. -/
def flattenOrder (st : List FlatRow × List String) (o : Order) : List FlatRow × List String :=
  o.lineItems.foldl flattenItem st

/-- The whole flattening pass over `allOrders`: `rawRows` plus the
discovered `locationNames`, both in production order. -/
def flattenOrders (orders : List Order) : List FlatRow × List String :=
  orders.foldl flattenOrder ([], [])

/-- One aggregated output row. -/
structure AggRow where
  productTitle : String
  productVariantTitle : String
  sku : String
  vendor : String
  productType : String
  netItemsSold : Int
  locations : LocMap
  deriving DecidableEq, Repr

/-- The grouping key `${r.productTitle}||${r.productVariantTitle}||${r.sku}`. -/
def rowKey (r : FlatRow) : String :=
  r.productTitle ++ "||" ++ r.productVariantTitle ++ "||" ++ r.sku

/-- The fresh aggregate created when a key is first seen. -/
def initAgg (r : FlatRow) : AggRow :=
  { productTitle := r.productTitle
    productVariantTitle := r.productVariantTitle
    sku := r.sku
    vendor := r.vendor
    productType := r.productType
    netItemsSold := 0
    locations := [] }

/-- `grouped[key].locations[loc] = r.locations[loc]` for every location
key of `r.locations`, in order: overwrite-merge. -/
def mergeLocs (m : LocMap) (es : LocMap) : LocMap :=
  es.foldl (fun acc p => upsertA acc p.1 p.2) m

/-- The read-modify-write the grouping loop body applies to the aggregate
at `rowKey r`: add the row's quantity and overwrite-merge its locations. -/
def merge1 (a : AggRow) (r : FlatRow) : AggRow :=
  { a with netItemsSold := a.netItemsSold + r.netItemsSold
           locations := mergeLocs a.locations r.locations }

/-- One step of the grouping loop over `rawRows`. -/
def groupStep (g : List (String × AggRow)) (r : FlatRow) : List (String × AggRow) :=
  let k := rowKey r
  let g1 := if (lookupA g k).isSome then g else g ++ [(k, initAgg r)]
  updateA g1 k (fun a => merge1 a r)

/-- The grouping pass: a JS object keyed by `rowKey`, in insertion order. -/
def groupRows (rows : List FlatRow) : List (String × AggRow) :=
  rows.foldl groupStep []

/-- `Object.values(grouped).sort((a, b) => a.sku.localeCompare(b.sku))`;
`cmp` is the abstract locale comparator. -/
def sortRows (cmp : String → String → Int) (rows : List AggRow) : List AggRow :=
  rows.mergeSort (fun a b => decide (cmp a.sku b.sku ≤ 0))

/-- The payload returned to the client. -/
structure ActionResult where
  rows : List AggRow
  locationNames : List String
  timestamp : String
  startDate : String
  endDate : String
  deriving Repr

/-- The whole server action: parse the two submitted strings, adjust the
end date to the last millisecond of its minute, run the pagination loop,
flatten, group, sort by SKU, and return the payload.  `parse` models JS
date parsing (`none` = Invalid Date), `cmp` models `localeCompare`, and
`now` the generated-at timestamp string. -/
def runAction (cmp : String → String → Int) (parse : String → Option Int) (now : String)
    (pages : List PageResp) (startDateStr endDateStr : String) : ActionResult :=
  let startDate := parse startDateStr
  let endDate := adjustEndO (parse endDateStr)
  let allOrders := fetchLoop startDate endDate pages []
  let fl := flattenOrders allOrders
  let finalRows := sortRows cmp ((groupRows fl.1).map Prod.snd)
  { rows := finalRows
    locationNames := fl.2
    timestamp := now
    startDate := startDateStr
    endDate := endDateStr }

/-- Pages that respect the requested page size (`first: 50`). -/
def pageBound (p : PageResp) : Bool :=
  match p with
  | .ok edges _ => edges.length ≤ 50
  | _ => true

/-- Code-point three-way string comparison: a concrete consistent
comparator usable in place of `localeCompare`. -/
def cpCmp (a b : String) : Int :=
  if a < b then -1 else if b < a then 1 else 0

/-- A bare order with a given creation timestamp, for examples. -/
def exOrd (t : Int) : Order := { createdAt := t, lineItems := [] }

/-- Twenty-one full pages of 50 in-window orders each, all announcing a
next page. -/
def capPages : List PageResp :=
  List.replicate 21 (PageResp.ok (List.replicate 50 (exOrd 5)) true)

/-- A concrete date parser for witnesses: `"S"` and `"E"` parse, anything
else is an Invalid Date. -/
def exParse (s : String) : Option Int :=
  if s = "S" then some 0 else if s = "E" then some 100000 else none

/-- The value the overwrite-merge leaves for a location: the last entry
bearing that key when the map is scanned as a plain entry list. -/
def lastVal (es : LocMap) (loc : String) : Option Stock :=
  (es.reverse.find? (fun p => p.1 == loc)).map Prod.snd

/-- The aggregate predicted for the (nonempty) list of rows bearing one
key, in production order: header fields of the first such row, summed
quantity, overwrite-merged locations. -/
def aggOf : List FlatRow → Option AggRow
  | [] => none
  | r0 :: rs =>
    some { productTitle := r0.productTitle
           productVariantTitle := r0.productVariantTitle
           sku := r0.sku
           vendor := r0.vendor
           productType := r0.productType
           netItemsSold := ((r0 :: rs).map FlatRow.netItemsSold).sum
           locations := ((r0 :: rs).map FlatRow.locations).foldl mergeLocs [] }

/-- A row whose product title contains the key delimiter. -/
def cexRowA : FlatRow :=
  { productTitle := "a||b", productVariantTitle := "c", sku := "s",
    vendor := "v", productType := "t", netItemsSold := 1, locations := [] }

/-- A row with a different triple but the same concatenated key as
`cexRowA`. -/
def cexRowB : FlatRow :=
  { productTitle := "a", productVariantTitle := "b||c", sku := "s",
    vendor := "v", productType := "t", netItemsSold := 2, locations := [] }

/-- First of two rows sharing a key but disagreeing on vendor and type. -/
def exRowV1 : FlatRow :=
  { productTitle := "P", productVariantTitle := "V", sku := "K",
    vendor := "FirstVendor", productType := "FirstType", netItemsSold := 1,
    locations := [("L", Stock.val 4)] }

/-- Second of two rows sharing a key but disagreeing on vendor and type. -/
def exRowV2 : FlatRow :=
  { productTitle := "P", productVariantTitle := "V", sku := "K",
    vendor := "OtherVendor", productType := "OtherType", netItemsSold := 2,
    locations := [("L", Stock.val 9), ("M", Stock.dash)] }

/-- A line item with a product but no variant at all. -/
def exItem1 : LineItem :=
  { quantity := 3,
    product := some { title := some "P", vendor := none, productType := none },
    variant := none }

/-- A line item with a variant that lacks both SKU and title. -/
def exItem2 : LineItem :=
  { quantity := 5,
    product := some { title := some "P", vendor := some "W", productType := some "T" },
    variant := some { title := none, sku := none, inventoryLevels := [] } }

/-- One order holding the two example line items. -/
def exOrders4 : List Order := [{ createdAt := 5, lineItems := [exItem1, exItem2] }]

/-- An inventory level with no data and no location name. -/
def exLvl1 : InvLevel := { quantities := none, locationName := none }

/-- An inventory level with an available quantity but no location name. -/
def exLvl2 : InvLevel :=
  { quantities := some [{ name := "available", quantity := 7 }],
    locationName := none }

/-!  Helper lemmas about the pagination loop. -/

/-- An error or missing-payload response makes the loop stop with the
accumulator, whatever follows. -/
theorem fetchLoop_append_stop (s e : Option Int) (p : PageResp)
    (hp : p = PageResp.errors ∨ p = PageResp.missing)
    (good rest : List PageResp) (acc : List Order) :
    fetchLoop s e (good ++ p :: rest) acc = fetchLoop s e good acc := by
  induction good generalizing acc with
  | nil => rcases hp with h | h <;> subst h <;> rfl
  | cons q good ih =>
    cases q with
    | errors => rfl
    | missing => rfl
    | ok edges hnp =>
      simp only [List.cons_append, fetchLoop]
      split
      · rfl
      · cases hnp
        · rfl
        · simpa using ih _

/-- With an invalid start or end date every comparison against it is
false, so the in-loop filter rejects every order. -/
theorem matchPred_invalid (s e : Option Int) (o : Order)
    (h : s = none ∨ e = none) : matchPred s e o = false := by
  rcases h with h | h <;> subst h <;> simp [matchPred, jsGe, jsLe]

/-- With an invalid start or end date the loop accumulates nothing new. -/
theorem fetchLoop_invalid (s e : Option Int) (h : s = none ∨ e = none)
    (pages : List PageResp) (acc : List Order) :
    fetchLoop s e pages acc = acc := by
  induction pages generalizing acc with
  | nil => rfl
  | cons p rest ih =>
    cases p with
    | errors => rfl
    | missing => rfl
    | ok edges hnp =>
      have hf : edges.filter (matchPred s e) = [] :=
        List.filter_eq_nil_iff.mpr fun a _ => by simp [matchPred_invalid s e a h]
      simp only [fetchLoop, hf, List.append_nil]
      split
      · rfl
      · cases hnp
        · rfl
        · simpa using ih acc

/-!  Association-list lemmas for the JS-object model. -/

/-- Lookup in the empty object. -/
@[simp] theorem lookupA_nil {α : Type} (k : String) :
    lookupA ([] : List (String × α)) k = none := rfl

/-- Lookup of a cons cell. -/
theorem lookupA_cons {α : Type} (p : String × α) (m : List (String × α))
    (k : String) :
    lookupA (p :: m) k = if p.1 == k then some p.2 else lookupA m k := by
  simp only [lookupA, List.find?_cons]
  cases h : (p.1 == k) <;> simp [h]

/-- Lookup distributes over append, first hit winning. -/
theorem lookupA_append {α : Type} (m1 m2 : List (String × α)) (k : String) :
    lookupA (m1 ++ m2) k = (lookupA m1 k).or (lookupA m2 k) := by
  simp only [lookupA, List.find?_append]
  cases m1.find? (fun p => p.1 == k) <;> simp

/-- A key looks up to something iff it occurs among the keys. -/
theorem lookupA_isSome_iff {α : Type} (m : List (String × α)) (k : String) :
    (lookupA m k).isSome = true ↔ k ∈ m.map Prod.fst := by
  induction m with
  | nil => simp [lookupA]
  | cons p m ih =>
    rw [lookupA_cons, List.map_cons, List.mem_cons]
    by_cases hpk : p.1 = k
    · simp [hpk]
    · have hb : (p.1 == k) = false := by simp [hpk]
      rw [hb, if_neg Bool.false_ne_true, ih]
      constructor
      · exact Or.inr
      · rintro (h1 | h1)
        · exact absurd h1.symm hpk
        · exact h1

/-- A key absent from the keys looks up to nothing. -/
theorem lookupA_eq_none {α : Type} (m : List (String × α)) (k : String)
    (h : k ∉ m.map Prod.fst) : lookupA m k = none := by
  cases hl : lookupA m k with
  | none => rfl
  | some a =>
    exact absurd ((lookupA_isSome_iff m k).mp (by simp [hl])) h

/-- Lookup after an in-place update. -/
theorem lookupA_updateA {α : Type} (m : List (String × α)) (k : String)
    (f : α → α) (k2 : String) :
    lookupA (updateA m k f) k2
      = if k2 = k then (lookupA m k).map f else lookupA m k2 := by
  induction m with
  | nil => simp [updateA, lookupA]
  | cons p m ih =>
    by_cases hpk : p.1 = k
    · have hstep : updateA (p :: m) k f = (p.1, f p.2) :: updateA m k f := by
        unfold updateA
        rw [List.map_cons, if_pos (by simp [hpk] : (p.1 == k) = true)]
      simp only [hstep, lookupA_cons, ih]
      by_cases hk2 : k2 = k
      · subst hk2
        have hb2 : (p.1 == k2) = true := by simp [hpk]
        simp [hb2]
      · have hb2 : (p.1 == k2) = false := by
          simp only [beq_eq_false_iff_ne, ne_eq]
          exact fun hh => hk2 (hpk.symm.trans hh).symm
        simp [hb2, hk2]
    · have hstep : updateA (p :: m) k f = p :: updateA m k f := by
        unfold updateA
        rw [List.map_cons, if_neg (by simp [hpk])]
      simp only [hstep, lookupA_cons, ih]
      by_cases hk2 : k2 = k
      · subst hk2
        have hb2 : (p.1 == k2) = false := by simp [hpk]
        simp [hb2]
      · simp [hk2]

/-- In-place update does not change the keys. -/
theorem keys_updateA {α : Type} (m : List (String × α)) (k : String)
    (f : α → α) : (updateA m k f).map Prod.fst = m.map Prod.fst := by
  unfold updateA
  rw [List.map_map]
  apply List.map_congr_left
  intro p _
  by_cases h : p.1 = k <;> simp [h]

/-- In-place update does not change the length. -/
theorem length_updateA {α : Type} (m : List (String × α)) (k : String)
    (f : α → α) : (updateA m k f).length = m.length := by
  simp [updateA]

/-- The overwrite branch of JS assignment is an in-place update to a
constant. -/
theorem upsertA_eq {α : Type} (m : List (String × α)) (k : String) (v : α) :
    upsertA m k v
      = if (lookupA m k).isSome then updateA m k (fun _ => v)
        else m ++ [(k, v)] := by
  have hiso : (m.find? (fun p => p.1 == k)).isSome = (lookupA m k).isSome := by
    unfold lookupA
    cases m.find? (fun p => p.1 == k) <;> rfl
  unfold upsertA updateA
  rw [hiso]
  split
  · apply List.map_congr_left
    intro p _
    by_cases h : p.1 = k <;> simp [h]
  · rfl

/-- Lookup after a JS object assignment. -/
theorem lookupA_upsertA {α : Type} (m : List (String × α)) (k : String)
    (v : α) (k2 : String) :
    lookupA (upsertA m k v) k2 = if k2 = k then some v else lookupA m k2 := by
  rw [upsertA_eq]
  split
  · rename_i hs
    rw [lookupA_updateA]
    by_cases hk : k2 = k
    · subst hk
      rw [if_pos rfl, if_pos rfl]
      cases hl : lookupA m k2 with
      | some a => simp
      | none => rw [hl] at hs; simp at hs
    · simp [hk]
  · rw [lookupA_append, lookupA_cons]
    by_cases hk : k2 = k
    · subst hk
      rename_i hs
      have : lookupA m k2 = none := by
        cases hl : lookupA m k2 with
        | none => rfl
        | some a => rw [hl] at hs; simp at hs
      simp [this]
    · have : (k == k2) = false := by
        simp only [beq_eq_false_iff_ne, ne_eq]
        exact fun hh => hk hh.symm
      simp [this, hk]

/-- Keys after a JS object assignment: unchanged when present, appended
when new. -/
theorem keys_upsertA {α : Type} (m : List (String × α)) (k : String) (v : α) :
    (upsertA m k v).map Prod.fst
      = if k ∈ m.map Prod.fst then m.map Prod.fst
        else m.map Prod.fst ++ [k] := by
  rw [upsertA_eq]
  by_cases h : k ∈ m.map Prod.fst
  · rw [if_pos ((lookupA_isSome_iff m k).mpr h), keys_updateA, if_pos h]
  · have : lookupA m k = none := lookupA_eq_none m k h
    rw [if_neg (by simp [this]), if_neg h, List.map_append]
    rfl

/-- C1 (counterexample): with twenty-one full pages of 50 in-window
orders — every page within the requested page size — the loop accumulates
1050 matched orders, exceeding 1000: the cap is checked only after a whole
page has been pushed. -/
theorem C1_counterexample :
    capPages.all pageBound = true ∧
    (fetchLoop (some 0) (some 10) capPages []).length = 1050 ∧
    1050 > 1000 := by
  refine ⟨by decide, by decide, by decide⟩

/-- C1 (amended): for every sequence of remote pages each holding at most
50 orders (the requested page size) and every accumulator of at most 1000
matches — in particular the empty one the loop starts from — the
accumulated matched-order list never exceeds 1050 = 1000 + one page:
the cap check runs after a whole page is pushed, so the total can pass
1000 by at most one page before the loop stops. -/
theorem C1_cap_at_most_1050 (s e : Option Int) (pages : List PageResp)
    (acc : List Order) (hp : pages.all pageBound = true)
    (hacc : acc.length ≤ 1000) :
    (fetchLoop s e pages acc).length ≤ 1050 := by
  induction pages generalizing acc with
  | nil => exact le_trans hacc (by norm_num)
  | cons p rest ih =>
    rw [List.all_cons, Bool.and_eq_true] at hp
    cases p with
    | errors => exact le_trans hacc (by norm_num)
    | missing => exact le_trans hacc (by norm_num)
    | ok edges hnp =>
      have hlen : (acc ++ edges.filter (matchPred s e)).length ≤ 1050 := by
        have h50 : edges.length ≤ 50 := by
          have := hp.1
          simpa [pageBound] using this
        have := List.length_filter_le (matchPred s e) edges
        simp only [List.length_append]
        omega
      simp only [fetchLoop]
      split
      · exact hlen
      · rename_i hcap
        cases hnp
        · simpa using hlen
        · simp only [if_true]
          exact ih _ hp.2 (by omega)

/-- C1 (witness for the amended theorem). -/
theorem C1_cap_at_most_1050_witness :
    ([PageResp.ok [exOrd 5] true].all pageBound = true) ∧
    ([] : List Order).length ≤ 1000 ∧
    (fetchLoop (some 0) (some 10) [PageResp.ok [exOrd 5] true] []).length ≤ 1050 :=
  ⟨by decide, by decide,
    C1_cap_at_most_1050 (some 0) (some 10) [PageResp.ok [exOrd 5] true] []
      (by decide) (by decide)⟩

/-- C6: when a page fetch reports GraphQL errors or the orders payload is
missing, pagination stops at that page and the whole action behaves
exactly as a run over the preceding pages alone: the orders accumulated so
far are still flattened, grouped and sorted, and the returned payload —
whose type has no error field at all — carries no error indication. -/
theorem C6_error_stops_and_keeps_partial_results (cmp : String → String → Int)
    (parse : String → Option Int) (now : String) (good rest : List PageResp)
    (sStr eStr : String) :
    runAction cmp parse now (good ++ PageResp.errors :: rest) sStr eStr
      = runAction cmp parse now good sStr eStr ∧
    runAction cmp parse now (good ++ PageResp.missing :: rest) sStr eStr
      = runAction cmp parse now good sStr eStr := by
  simp only [runAction]
  rw [fetchLoop_append_stop _ _ _ (Or.inl rfl) good rest,
    fetchLoop_append_stop _ _ _ (Or.inr rfl) good rest]
  exact ⟨rfl, rfl⟩

/-- C7 (counterexample): the claim says that with an invalid start or end
date both range comparisons evaluate to false for every order; but when
only the start date is invalid, the end comparison `created <= endDate`
can still evaluate to true — here the order at `t = 50` against the
adjusted valid end date `adjustEndO (some 40000) = some 59999`. -/
theorem C7_counterexample :
    jsGe 50 (none : Option Int) = false ∧
    jsLe 50 (adjustEndO (some 40000)) = true := by
  refine ⟨rfl, by decide⟩

/-- C7 (amended): if the submitted start or end string parses to an
invalid date, every comparison against that invalid date is false, so the
conjunctive filter rejects every order: the loop matches nothing and the
handler returns an empty row list rather than raising or reporting the
invalid input. -/
theorem C7_invalid_date_yields_empty (cmp : String → String → Int)
    (parse : String → Option Int) (now : String) (pages : List PageResp)
    (sStr eStr : String) (h : parse sStr = none ∨ parse eStr = none) :
    fetchLoop (parse sStr) (adjustEndO (parse eStr)) pages [] = [] ∧
    (runAction cmp parse now pages sStr eStr).rows = [] := by
  have h2 : parse sStr = none ∨ adjustEndO (parse eStr) = none := by
    rcases h with h | h
    · exact Or.inl h
    · exact Or.inr (by simp [adjustEndO, h])
  have hf : fetchLoop (parse sStr) (adjustEndO (parse eStr)) pages [] = [] :=
    fetchLoop_invalid _ _ h2 pages []
  refine ⟨hf, ?_⟩
  simp only [runAction]
  rw [hf]
  simp [flattenOrders, groupRows, sortRows]

/-- C7 (witness for the amended theorem). -/
theorem C7_invalid_date_yields_empty_witness :
    (exParse "bad" = none ∨ exParse "E" = none) ∧
    (fetchLoop (exParse "bad") (adjustEndO (exParse "E"))
        [PageResp.ok [exOrd 5] true] [] = [] ∧
      (runAction cpCmp exParse "now" [PageResp.ok [exOrd 5] true] "bad" "E").rows = []) :=
  ⟨Or.inl (by decide),
    C7_invalid_date_yields_empty cpCmp exParse "now"
      [PageResp.ok [exOrd 5] true] "bad" "E" (Or.inl (by decide))⟩

/-- The loop returns its accumulator plus exactly the in-window orders of
the pages it consumed, in fetch order. -/
theorem fetchLoop_eq_filter (s e : Option Int) (pages : List PageResp)
    (acc : List Order) :
    fetchLoop s e pages acc
      = acc ++ (consumedEdges s e pages acc).filter (matchPred s e) := by
  induction pages generalizing acc with
  | nil => simp [fetchLoop, consumedEdges]
  | cons p rest ih =>
    cases p with
    | errors => simp [fetchLoop, consumedEdges]
    | missing => simp [fetchLoop, consumedEdges]
    | ok edges hnp =>
      simp only [fetchLoop, consumedEdges]
      split
      · simp [List.filter_append]
      · cases hnp
        · simp [List.filter_append]
        · simp only [if_true]
          rw [ih]
          simp [List.filter_append]

/-- C2: with valid parsed start and end dates, the adjusted end bound is
the last millisecond of the end date's minute (same minute, offset
59999), and a fetched order is matched — lands in the aggregation input —
iff its creation timestamp lies in the inclusive window
`[start, adjustedEnd]`. -/
theorem C2_match_iff_in_window (parse : String → Option Int)
    (pages : List PageResp) (sStr eStr : String) (s e : Int) (o : Order)
    (hs : parse sStr = some s) (he : parse eStr = some e) :
    ((adjustEnd e).ediv 60000 = e.ediv 60000 ∧
      (adjustEnd e).emod 60000 = 59999) ∧
    (o ∈ fetchLoop (parse sStr) (adjustEndO (parse eStr)) pages [] ↔
      o ∈ consumedEdges (some s) (some (adjustEnd e)) pages [] ∧
        s ≤ o.createdAt ∧ o.createdAt ≤ adjustEnd e) := by
  constructor
  · unfold adjustEnd
    have hm : ∀ x : Int, x.emod 60000 = x % 60000 := fun _ => rfl
    have hd : ∀ x : Int, x.ediv 60000 = x / 60000 := fun _ => rfl
    simp only [hm, hd]
    constructor <;> omega
  · rw [hs, he]
    simp only [adjustEndO, Option.map_some']
    rw [fetchLoop_eq_filter]
    simp [List.mem_filter, matchPred, jsGe, jsLe, and_assoc]

/-- C2 (witness). -/
theorem C2_match_iff_in_window_witness :
    (exParse "S" = some 0 ∧ exParse "E" = some 100000) ∧
    (((adjustEnd 100000).ediv 60000 = (100000 : Int).ediv 60000 ∧
        (adjustEnd 100000).emod 60000 = 59999) ∧
      (exOrd 5 ∈ fetchLoop (exParse "S") (adjustEndO (exParse "E"))
          [PageResp.ok [exOrd 5] true] [] ↔
        exOrd 5 ∈ consumedEdges (some 0) (some (adjustEnd 100000))
            [PageResp.ok [exOrd 5] true] [] ∧
          0 ≤ (exOrd 5).createdAt ∧ (exOrd 5).createdAt ≤ adjustEnd 100000)) :=
  ⟨⟨by decide, by decide⟩,
    C2_match_iff_in_window exParse [PageResp.ok [exOrd 5] true] "S" "E"
      0 100000 (exOrd 5) (by decide) (by decide)⟩

/-- Sorting with a consistent comparator yields an adjacentwise
non-decreasing list. -/
theorem sortRows_chain (cmp : String → String → Int)
    (htrans : ∀ a b c : String, cmp a b ≤ 0 → cmp b c ≤ 0 → cmp a c ≤ 0)
    (htotal : ∀ a b : String, cmp a b ≤ 0 ∨ cmp b a ≤ 0)
    (rows : List AggRow) :
    List.Chain' (fun a b : AggRow => cmp a.sku b.sku ≤ 0) (sortRows cmp rows) := by
  have hp : List.Pairwise
      (fun a b : AggRow => (decide (cmp a.sku b.sku ≤ 0)) = true)
      (sortRows cmp rows) := by
    apply List.sorted_mergeSort
    · intro a b c hab hbc
      simp only [decide_eq_true_eq] at hab hbc ⊢
      exact htrans _ _ _ hab hbc
    · intro a b
      rcases htotal a.sku b.sku with h | h <;> simp [h]
  exact (hp.imp fun h => by simpa using h).chain'

/-- C5: as long as the locale comparator is consistent (transitive and
total), the returned row list is non-decreasing by SKU under it: every
adjacent pair compares less than or equal. -/
theorem C5_rows_sorted_by_sku (cmp : String → String → Int)
    (parse : String → Option Int) (now : String) (pages : List PageResp)
    (sStr eStr : String)
    (htrans : ∀ a b c : String, cmp a b ≤ 0 → cmp b c ≤ 0 → cmp a c ≤ 0)
    (htotal : ∀ a b : String, cmp a b ≤ 0 ∨ cmp b a ≤ 0) :
    List.Chain' (fun a b : AggRow => cmp a.sku b.sku ≤ 0)
      ((runAction cmp parse now pages sStr eStr).rows) :=
  sortRows_chain cmp htrans htotal _

/-- The code-point comparator is nonpositive exactly on ordered pairs. -/
theorem cpCmp_le_iff (a b : String) : cpCmp a b ≤ 0 ↔ a ≤ b := by
  unfold cpCmp
  by_cases h1 : a < b
  · simp [h1, le_of_lt h1]
  · by_cases h2 : b < a
    · simp [h1, h2, not_le.mpr h2]
    · simp [h1, h2, le_of_not_lt h2]

/-- C5 (witness). -/
theorem C5_rows_sorted_by_sku_witness :
    (∀ a b c : String, cpCmp a b ≤ 0 → cpCmp b c ≤ 0 → cpCmp a c ≤ 0) ∧
    (∀ a b : String, cpCmp a b ≤ 0 ∨ cpCmp b a ≤ 0) ∧
    List.Chain' (fun a b : AggRow => cpCmp a.sku b.sku ≤ 0)
      ((runAction cpCmp exParse "now" [PageResp.ok [exOrd 5] true] "S" "E").rows) := by
  have htrans : ∀ a b c : String, cpCmp a b ≤ 0 → cpCmp b c ≤ 0 → cpCmp a c ≤ 0 :=
    fun a b c hab hbc => (cpCmp_le_iff a c).mpr
      (le_trans ((cpCmp_le_iff a b).mp hab) ((cpCmp_le_iff b c).mp hbc))
  have htotal : ∀ a b : String, cpCmp a b ≤ 0 ∨ cpCmp b a ≤ 0 := fun a b =>
    (le_total a b).imp (cpCmp_le_iff a b).mpr (cpCmp_le_iff b a).mpr
  exact ⟨htrans, htotal,
    C5_rows_sorted_by_sku cpCmp exParse "now" [PageResp.ok [exOrd 5] true]
      "S" "E" htrans htotal⟩

/-- C8: the returned payload echoes the originally submitted form strings
verbatim in its `startDate` and `endDate` fields — the end-of-minute
adjustment applies only to the parsed timestamp used for filtering and is
never reflected in the echoed strings. -/
theorem C8_echoes_submitted_strings (cmp : String → String → Int)
    (parse : String → Option Int) (now : String) (pages : List PageResp)
    (sStr eStr : String) :
    (runAction cmp parse now pages sStr eStr).startDate = sStr ∧
    (runAction cmp parse now pages sStr eStr).endDate = eStr :=
  ⟨rfl, rfl⟩

/-!  Grouping-pass characterization. -/

/-- One grouping step at the end of the row list. -/
theorem groupRows_concat (rows : List FlatRow) (r : FlatRow) :
    groupRows (rows ++ [r]) = groupStep (groupRows rows) r := by
  simp [groupRows, List.foldl_append]

/-- Effect of one grouping step on lookups. -/
theorem lookupA_groupStep (g : List (String × AggRow)) (r : FlatRow)
    (k : String) :
    lookupA (groupStep g r) k
      = if k = rowKey r
        then some (merge1 ((lookupA g (rowKey r)).getD (initAgg r)) r)
        else lookupA g k := by
  simp only [groupStep]
  rw [lookupA_updateA]
  by_cases hk : k = rowKey r
  · rw [if_pos hk, if_pos hk]
    cases hl : lookupA g (rowKey r) with
    | some a =>
      rw [if_pos (by simp [hl]), hl]
      rfl
    | none =>
      rw [if_neg (by simp [hl]), lookupA_append, hl, lookupA_cons]
      simp
  · rw [if_neg hk, if_neg hk]
    split
    · rfl
    · rw [lookupA_append, lookupA_cons]
      have hb : (rowKey r == k) = false := by
        simp only [beq_eq_false_iff_ne, ne_eq]
        exact fun hh => hk hh.symm
      simp [hb]

/-- Appending one row merges it into the predicted aggregate. -/
theorem aggOf_concat (fs : List FlatRow) (r : FlatRow) :
    aggOf (fs ++ [r]) = some (merge1 ((aggOf fs).getD (initAgg r)) r) := by
  cases fs with
  | nil => simp [aggOf, merge1, initAgg]
  | cons r0 rs =>
    simp [aggOf, merge1, List.map_append, List.sum_append, List.foldl_append]
    omega

/-- The grouping map sends each key to the merge of exactly the rows
bearing it. -/
theorem lookupA_groupRows (rows : List FlatRow) (k : String) :
    lookupA (groupRows rows) k
      = aggOf (rows.filter (fun r => rowKey r == k)) := by
  induction rows using List.reverseRecOn with
  | nil => rfl
  | append_singleton rows r ih =>
    rw [groupRows_concat, lookupA_groupStep, List.filter_append]
    by_cases hk : rowKey r = k
    · rw [if_pos hk.symm]
      have hfr : List.filter (fun r2 => rowKey r2 == k) [r] = [r] := by
        simp [hk]
      rw [hfr, aggOf_concat, hk, ih]
    · rw [if_neg (fun hh => hk hh.symm)]
      have hfr : List.filter (fun r2 => rowKey r2 == k) [r] = [] := by
        simp [hk]
      rw [hfr, List.append_nil, ih]

/-- Keys produced by one grouping step. -/
theorem keys_groupStep (g : List (String × AggRow)) (r : FlatRow) :
    (groupStep g r).map Prod.fst
      = if (lookupA g (rowKey r)).isSome then g.map Prod.fst
        else g.map Prod.fst ++ [rowKey r] := by
  simp only [groupStep]
  rw [keys_updateA]
  split
  · rfl
  · simp

/-- The grouping map's keys are pairwise distinct. -/
theorem keys_groupRows_nodup (rows : List FlatRow) :
    ((groupRows rows).map Prod.fst).Nodup := by
  induction rows using List.reverseRecOn with
  | nil => simp [groupRows]
  | append_singleton rows r ih =>
    rw [groupRows_concat, keys_groupStep]
    split
    · exact ih
    · rename_i habs
      have hnm : rowKey r ∉ (groupRows rows).map Prod.fst := by
        intro hmem
        exact habs ((lookupA_isSome_iff _ _).mpr hmem)
      simp [List.nodup_append, ih, hnm]

/-- Step length of the grouping loop. -/
theorem length_groupStep (g : List (String × AggRow)) (r : FlatRow) :
    (groupStep g r).length
      = if (lookupA g (rowKey r)).isSome then g.length else g.length + 1 := by
  simp only [groupStep]
  rw [length_updateA]
  split
  · rfl
  · simp

/-!  Overwrite-merge of location maps. -/

/-- One more entry into an overwrite-merge. -/
theorem mergeLocs_concat (m es : LocMap) (p : String × Stock) :
    mergeLocs m (es ++ [p]) = upsertA (mergeLocs m es) p.1 p.2 := by
  simp [mergeLocs, List.foldl_append]

/-- The last entry of an extended map. -/
theorem lastVal_concat (es : LocMap) (p : String × Stock) (loc : String) :
    lastVal (es ++ [p]) loc
      = if p.1 == loc then some p.2 else lastVal es loc := by
  unfold lastVal
  rw [List.reverse_append]
  simp only [List.reverse_cons, List.reverse_nil, List.nil_append,
    List.singleton_append, List.find?_cons]
  cases h : (p.1 == loc) <;> simp

/-- Overwrite-merge looks up to the merged entries' last write, falling
back to the base map. -/
theorem lookupA_mergeLocs (m es : LocMap) (loc : String) :
    lookupA (mergeLocs m es) loc = (lastVal es loc).or (lookupA m loc) := by
  induction es using List.reverseRecOn with
  | nil => simp [mergeLocs, lastVal]
  | append_singleton es p ih =>
    rw [mergeLocs_concat, lookupA_upsertA, lastVal_concat]
    cases hb : (p.1 == loc) with
    | true =>
      have : loc = p.1 := by
        have := (beq_iff_eq).mp hb
        exact this.symm
      simp [this]
    | false =>
      have : ¬loc = p.1 := by
        intro hh
        rw [hh] at hb
        simp at hb
      rw [if_neg this, ih]
      simp

/-- Folding several rows' maps: the last reporting row wins. -/
theorem lookupA_foldl_mergeLocs (rs : List FlatRow) (loc : String) :
    lookupA ((rs.map FlatRow.locations).foldl mergeLocs []) loc
      = (rs.filterMap (fun r => lastVal r.locations loc)).getLast? := by
  induction rs using List.reverseRecOn with
  | nil => rfl
  | append_singleton rs r ih =>
    rw [List.map_append, List.foldl_append]
    simp only [List.map_cons, List.map_nil, List.foldl_cons, List.foldl_nil]
    rw [lookupA_mergeLocs, ih, List.filterMap_append]
    cases h : lastVal r.locations loc with
    | some v => simp [h, List.getLast?_concat]
    | none => simp [h]

/-- On a map with distinct keys, first and last hit agree. -/
theorem lastVal_eq_lookupA (es : LocMap) (loc : String)
    (h : (es.map Prod.fst).Nodup) : lastVal es loc = lookupA es loc := by
  induction es with
  | nil => rfl
  | cons p es ih =>
    rw [List.map_cons, List.nodup_cons] at h
    rw [lookupA_cons]
    unfold lastVal
    rw [List.reverse_cons, List.find?_append]
    cases hb : (p.1 == loc) with
    | false =>
      have h1 : List.find? (fun q => q.1 == loc) [p] = none := by
        simp [List.find?_cons, hb]
      rw [h1, Option.or_none, if_neg Bool.false_ne_true]
      exact ih h.2
    | true =>
      have hploc : p.1 = loc := by simpa using hb
      have h2 : es.reverse.find? (fun q => q.1 == loc) = none := by
        rw [List.find?_eq_none]
        intro x hx hqx
        have hxl : x.1 = loc := by simpa using hqx
        have hxm : x.1 ∈ es.map Prod.fst :=
          List.mem_map_of_mem Prod.fst (List.mem_reverse.mp hx)
        rw [hxl, ← hploc] at hxm
        exact h.1 hxm
      rw [h2, Option.none_or, if_pos rfl]
      simp [List.find?_cons, hb]

/-!  Flattening pass. -/

/-- Rows pushed by the per-item loop. -/
theorem foldl_flattenItem_fst (items : List LineItem)
    (st : List FlatRow × List String) :
    (items.foldl flattenItem st).1 = st.1 ++ items.map mkRow := by
  induction items generalizing st with
  | nil => simp
  | cons n items ih =>
    rw [List.foldl_cons, ih]
    simp [flattenItem]

/-- The flattening pass emits exactly one row per line item, in order. -/
theorem flattenOrders_fst (orders : List Order)
    (st : List FlatRow × List String) :
    (orders.foldl flattenOrder st).1
      = st.1 ++ orders.flatMap (fun o => o.lineItems.map mkRow) := by
  induction orders generalizing st with
  | nil => simp
  | cons o orders ih =>
    rw [List.foldl_cons, ih, List.flatMap_cons, ← List.append_assoc]
    congr 1
    exact foldl_flattenItem_fst o.lineItems st

/-!  Per-level processing. -/

/-- Membership after a set insertion. -/
theorem mem_insertSet (s : List String) (x y : String) :
    y ∈ insertSet s x ↔ y ∈ s ∨ y = x := by
  unfold insertSet
  split
  · rename_i hx
    constructor
    · exact Or.inl
    · rintro (h | h)
      · exact h
      · exact h ▸ hx
  · simp [List.mem_append]

/-- The paired per-level fold splits into independent folds of its two
components. -/
theorem procLevels_eq (levels : List InvLevel) (locs : List String)
    (m : LocMap) :
    levels.foldl (fun st lvl =>
        (insertSet st.1 (locKey lvl), upsertA st.2 (locKey lvl) (availOf lvl)))
      (locs, m)
      = (levels.foldl (fun s lvl => insertSet s (locKey lvl)) locs,
         levels.foldl (fun mm lvl => upsertA mm (locKey lvl) (availOf lvl)) m) := by
  induction levels generalizing locs m with
  | nil => rfl
  | cons l ls ih =>
    rw [List.foldl_cons, List.foldl_cons, List.foldl_cons]
    exact ih _ _

/-- C3 (counterexample): two flattened rows with different
(productTitle, variantTitle, sku) triples whose concatenated keys collide
through the "||" delimiter merge into a single aggregate row; its
quantity 3 differs from the sum 1 of the quantities of the rows bearing
the first row's triple, so merging is not governed by the triple alone. -/
theorem C3_counterexample :
    cexRowA.productTitle ≠ cexRowB.productTitle ∧
    rowKey cexRowA = rowKey cexRowB ∧
    ((groupRows [cexRowA, cexRowB]).map Prod.snd).map AggRow.netItemsSold = [3] ∧
    (([cexRowA, cexRowB].filter (fun r =>
        r.productTitle == cexRowA.productTitle &&
        r.productVariantTitle == cexRowA.productVariantTitle &&
        r.sku == cexRowA.sku)).map FlatRow.netItemsSold).sum = 1 := by
  refine ⟨by decide, by decide, by decide, by decide⟩

/-- C3 (amended): rows merge by the concatenated key
productTitle||variantTitle||sku — rows sharing a triple share a key, but
keys can also collide through the delimiter.  Every key present among the
rows owns exactly one aggregate entry; its quantity is the sum of the
quantities of the rows bearing that key, in production order, and each
location maps to the value reported by the last such row reporting it —
overwritten, not summed, not first-write-wins.  (Flattened rows always
have duplicate-free location keys, as assumed here.) -/
theorem C3_merge_by_key (rows : List FlatRow) (k : String) (r0 : FlatRow)
    (rs : List FlatRow)
    (hf : rows.filter (fun r => rowKey r == k) = r0 :: rs)
    (hnd : ∀ r ∈ rows, (r.locations.map Prod.fst).Nodup) :
    ∃ a : AggRow,
      lookupA (groupRows rows) k = some a ∧
      ((groupRows rows).map Prod.fst).count k = 1 ∧
      a.netItemsSold = ((r0 :: rs).map FlatRow.netItemsSold).sum ∧
      ∀ loc : String, lookupA a.locations loc
        = ((r0 :: rs).filterMap (fun r => lookupA r.locations loc)).getLast? := by
  have hla : lookupA (groupRows rows) k = aggOf (r0 :: rs) := by
    rw [lookupA_groupRows, hf]
  have hmem : ∀ r ∈ r0 :: rs, r ∈ rows := by
    intro r hr
    have hr2 : r ∈ rows.filter (fun r2 => rowKey r2 == k) := hf ▸ hr
    exact (List.mem_filter.mp hr2).1
  refine ⟨_, hla, ?_, rfl, ?_⟩
  · have hk : k ∈ (groupRows rows).map Prod.fst :=
      (lookupA_isSome_iff _ _).mp (by simp [hla, aggOf])
    exact List.count_eq_one_of_mem (keys_groupRows_nodup rows) hk
  · intro loc
    show lookupA (((r0 :: rs).map FlatRow.locations).foldl mergeLocs []) loc = _
    rw [lookupA_foldl_mergeLocs,
      List.filterMap_congr
        (fun r hr => lastVal_eq_lookupA r.locations loc (hnd r (hmem r hr)))]

/-- C3 (witness for the amended theorem). -/
theorem C3_merge_by_key_witness :
    ([exRowV1, exRowV2].filter (fun r => rowKey r == "P||V||K")
        = exRowV1 :: [exRowV2]) ∧
    (∀ r ∈ [exRowV1, exRowV2], (r.locations.map Prod.fst).Nodup) ∧
    (∃ a : AggRow,
      lookupA (groupRows [exRowV1, exRowV2]) "P||V||K" = some a ∧
      ((groupRows [exRowV1, exRowV2]).map Prod.fst).count "P||V||K" = 1 ∧
      a.netItemsSold = ((exRowV1 :: [exRowV2]).map FlatRow.netItemsSold).sum ∧
      ∀ loc : String, lookupA a.locations loc
        = ((exRowV1 :: [exRowV2]).filterMap
            (fun r => lookupA r.locations loc)).getLast?) :=
  ⟨by decide, by decide,
    C3_merge_by_key [exRowV1, exRowV2] "P||V||K" exRowV1 [exRowV2]
      (by decide) (by decide)⟩

/-- C10: the vendor and productType of an aggregate row are those of the
first flattened row, in production order, that bears its key; the values
carried by every later contributing row are silently discarded, different
or not. -/
theorem C10_vendor_type_from_first_row (rows : List FlatRow) (k : String)
    (r0 : FlatRow) (rs : List FlatRow)
    (hf : rows.filter (fun r => rowKey r == k) = r0 :: rs) :
    ∃ a : AggRow, lookupA (groupRows rows) k = some a ∧
      a.vendor = r0.vendor ∧ a.productType = r0.productType := by
  have hla : lookupA (groupRows rows) k = aggOf (r0 :: rs) := by
    rw [lookupA_groupRows, hf]
  exact ⟨_, hla, rfl, rfl⟩

/-- C10 (witness): the second row's differing vendor and type are
discarded. -/
theorem C10_vendor_type_from_first_row_witness :
    ([exRowV1, exRowV2].filter (fun r => rowKey r == "P||V||K")
        = exRowV1 :: [exRowV2]) ∧
    (∃ a : AggRow,
      lookupA (groupRows [exRowV1, exRowV2]) "P||V||K" = some a ∧
      a.vendor = exRowV1.vendor ∧ a.productType = exRowV1.productType) :=
  ⟨by decide,
    C10_vendor_type_from_first_row [exRowV1, exRowV2] "P||V||K" exRowV1
      [exRowV2] (by decide)⟩

/-- C4: the flattener emits exactly one row per line item of every
matched order, in order; every absent product title, variant title, SKU,
vendor or product-type value becomes the literal "N/A"; and two line
items lacking SKU and variant title whose rows carry the same product
title share the same grouping key and land in a single aggregate
bucket. -/
theorem C4_row_per_item_and_na_defaults (orders : List Order)
    (n1 n2 : LineItem)
    (h1s : n1.variant.bind Variant.sku = none)
    (h1t : n1.variant.bind Variant.title = none)
    (h2s : n2.variant.bind Variant.sku = none)
    (h2t : n2.variant.bind Variant.title = none)
    (hpt : (mkRow n1).productTitle = (mkRow n2).productTitle) :
    (flattenOrders orders).1
      = orders.flatMap (fun o => o.lineItems.map mkRow) ∧
    (∀ n : LineItem, n.product.bind Product.title = none →
      (mkRow n).productTitle = "N/A") ∧
    (∀ n : LineItem, n.variant.bind Variant.title = none →
      (mkRow n).productVariantTitle = "N/A") ∧
    (∀ n : LineItem, n.variant.bind Variant.sku = none →
      (mkRow n).sku = "N/A") ∧
    (∀ n : LineItem, n.product.bind Product.vendor = none →
      (mkRow n).vendor = "N/A") ∧
    (∀ n : LineItem, n.product.bind Product.productType = none →
      (mkRow n).productType = "N/A") ∧
    (mkRow n1).sku = "N/A" ∧ (mkRow n1).productVariantTitle = "N/A" ∧
    rowKey (mkRow n1) = rowKey (mkRow n2) ∧
    (groupRows [mkRow n1, mkRow n2]).length = 1 := by
  have hna : ∀ x : Option String, x = none → orDefault x "N/A" = "N/A" := by
    intro x hx
    rw [hx]
    rfl
  have e1s : (mkRow n1).sku = "N/A" := hna _ h1s
  have e1t : (mkRow n1).productVariantTitle = "N/A" := hna _ h1t
  have e2s : (mkRow n2).sku = "N/A" := hna _ h2s
  have e2t : (mkRow n2).productVariantTitle = "N/A" := hna _ h2t
  have hkey : rowKey (mkRow n1) = rowKey (mkRow n2) := by
    unfold rowKey
    rw [e1s, e1t, e2s, e2t, hpt]
  have hlen : (groupRows [mkRow n1, mkRow n2]).length = 1 := by
    show (groupStep (groupStep [] (mkRow n1)) (mkRow n2)).length = 1
    have h1 : (lookupA (groupStep [] (mkRow n1))
        (rowKey (mkRow n2))).isSome = true := by
      rw [← hkey, lookupA_groupStep, if_pos rfl]
      rfl
    rw [length_groupStep, if_pos h1, length_groupStep, if_neg (by simp)]
    rfl
  exact ⟨by simpa using flattenOrders_fst orders ([], []),
    fun n h => hna _ h, fun n h => hna _ h, fun n h => hna _ h,
    fun n h => hna _ h, fun n h => hna _ h, e1s, e1t, hkey, hlen⟩

/-- C4 (witness). -/
theorem C4_row_per_item_and_na_defaults_witness :
    (exItem1.variant.bind Variant.sku = none ∧
      exItem1.variant.bind Variant.title = none ∧
      exItem2.variant.bind Variant.sku = none ∧
      exItem2.variant.bind Variant.title = none ∧
      (mkRow exItem1).productTitle = (mkRow exItem2).productTitle) ∧
    ((flattenOrders exOrders4).1
      = exOrders4.flatMap (fun o => o.lineItems.map mkRow) ∧
    (∀ n : LineItem, n.product.bind Product.title = none →
      (mkRow n).productTitle = "N/A") ∧
    (∀ n : LineItem, n.variant.bind Variant.title = none →
      (mkRow n).productVariantTitle = "N/A") ∧
    (∀ n : LineItem, n.variant.bind Variant.sku = none →
      (mkRow n).sku = "N/A") ∧
    (∀ n : LineItem, n.product.bind Product.vendor = none →
      (mkRow n).vendor = "N/A") ∧
    (∀ n : LineItem, n.product.bind Product.productType = none →
      (mkRow n).productType = "N/A") ∧
    (mkRow exItem1).sku = "N/A" ∧
    (mkRow exItem1).productVariantTitle = "N/A" ∧
    rowKey (mkRow exItem1) = rowKey (mkRow exItem2) ∧
    (groupRows [mkRow exItem1, mkRow exItem2]).length = 1) :=
  ⟨⟨by decide, by decide, by decide, by decide, by decide⟩,
    C4_row_per_item_and_na_defaults exOrders4 exItem1 exItem2
      (by decide) (by decide) (by decide) (by decide) (by decide)⟩

/-- C9: a level with an absent location name gets the literal key
"Unknown" — not "N/A", not "-"; "Unknown" enters the discovered
location-name set, the level's available value is recorded under it, and
several nameless levels on the same row collapse to the single "Unknown"
entry, the last write winning. -/
theorem C9_unknown_location_default (levels : List InvLevel)
    (locs : List String) (hall : ∀ l ∈ levels, l.locationName = none)
    (hne : levels ≠ []) :
    (∀ l : InvLevel, l.locationName = none → locKey l = "Unknown") ∧
    "Unknown" ∈ (procLevels locs levels).1 ∧
    (procLevels locs levels).2.map Prod.fst = ["Unknown"] ∧
    lookupA (procLevels locs levels).2 "Unknown"
      = (levels.map availOf).getLast? := by
  have hlk : ∀ l : InvLevel, l.locationName = none → locKey l = "Unknown" := by
    intro l h
    unfold locKey
    rw [h]
    rfl
  have main : ∀ ls : List InvLevel, (∀ l ∈ ls, l.locationName = none) →
      ls ≠ [] → ∀ locs2 : List String,
      "Unknown" ∈ (procLevels locs2 ls).1 ∧
      (procLevels locs2 ls).2.map Prod.fst = ["Unknown"] ∧
      lookupA (procLevels locs2 ls).2 "Unknown" = (ls.map availOf).getLast? := by
    intro ls
    induction ls using List.reverseRecOn with
    | nil => intro _ hn _; exact absurd rfl hn
    | append_singleton ls l ih =>
      intro hall2 _ locs2
      have hl : locKey l = "Unknown" := hlk l (hall2 l (by simp))
      have hsplit := procLevels_eq (ls ++ [l]) locs2 []
      unfold procLevels
      rw [hsplit, List.foldl_append, List.foldl_append]
      simp only [List.foldl_cons, List.foldl_nil, hl]
      by_cases hns : ls = []
      · subst hns
        exact ⟨(mem_insertSet _ _ _).mpr (Or.inr rfl), rfl, rfl⟩
      · have ihm := ih (fun x hx => hall2 x (List.mem_append_left _ hx)) hns locs2
        unfold procLevels at ihm
        rw [procLevels_eq] at ihm
        refine ⟨(mem_insertSet _ _ _).mpr (Or.inr rfl), ?_, ?_⟩
        · rw [keys_upsertA]
          rw [ihm.2.1]
          simp
        · rw [lookupA_upsertA, if_pos rfl, List.map_append]
          simp [List.getLast?_concat]
  refine ⟨hlk, ?_, ?_, ?_⟩
  · exact (main levels hall hne locs).1
  · exact (main levels hall hne locs).2.1
  · exact (main levels hall hne locs).2.2

/-- C9 (witness). -/
theorem C9_unknown_location_default_witness :
    ((∀ l ∈ [exLvl1, exLvl2], l.locationName = none) ∧
      [exLvl1, exLvl2] ≠ []) ∧
    ((∀ l : InvLevel, l.locationName = none → locKey l = "Unknown") ∧
      "Unknown" ∈ (procLevels [] [exLvl1, exLvl2]).1 ∧
      (procLevels [] [exLvl1, exLvl2]).2.map Prod.fst = ["Unknown"] ∧
      lookupA (procLevels [] [exLvl1, exLvl2]).2 "Unknown"
        = ([exLvl1, exLvl2].map availOf).getLast?) :=
  ⟨⟨by decide, by decide⟩,
    C9_unknown_location_default [exLvl1, exLvl2] [] (by decide) (by decide)⟩

end RestockingReport


